import Mathlib

/-!
# Verification of the quasar schema repository (src/internal/repository/repository.go)

This file shallowly embeds the Go repository component: the etcd-backed
schema store (`SaveConfigSchema`, `GetConfigSchema`, `DeleteConfigSchema`,
`GetSchemasByPrefix`, `GetLatestVersionByPrefix`), the key decoding helper
`getSchemaDetailsFromKey`, and the version comparison it delegates to
`golang.org/x/mod/semver.Compare`.

Modelling conventions:
* The etcd store is an association list from keys to envelope values, kept
  sorted by key with unique keys (etcd range reads return keys in ascending
  byte order).  `json.Marshal`/`json.Unmarshal` of the envelope struct
  (`pb.ConfigSchemaData`) is a bijection on well-formed payloads and is
  elided: the store holds the structured envelope directly.
* The YAML/JSON transcoding functions `yaml.YAMLToJSON` and
  `yaml.JSONToYAML` are third-party library calls; repository operations
  take them as explicit function parameters of type `String → Option String`
  (`none` models a conversion error).
* Operations that can observe a transport failure of the etcd client take a
  boolean `avail`; `avail = false` models the client call returning a
  non-nil error (deadline exceeded / store unreachable).
* A Go runtime panic (index out of range) is modelled as a distinguished
  result `GoResult.panicked`, separate from returned errors.
-/

set_option autoImplicit false

namespace Quasar

/-- The envelope persisted under a key: `pb.ConfigSchemaData`
(`Schema` holds the canonical JSON text, `CreationTime` a timestamp,
modelled as a `Nat`). -/
structure ConfigSchemaData where
  schema : String
  creationTime : Nat
deriving DecidableEq, Repr

/-- Struct `pb.ConfigSchemaDetails`: the structured identifier decoded from a key.
The Go field `Namespace` is called `nspace` because `namespace` is a Lean
keyword. -/
structure ConfigSchemaDetails where
  organization : String
  nspace : String
  schemaName : String
  version : String
deriving DecidableEq, Repr

/-- Struct `pb.ConfigSchema`: one listing entry, pairing decoded details with the
envelope. -/
structure ConfigSchema where
  schemaDetails : ConfigSchemaDetails
  schemaData : ConfigSchemaData
deriving DecidableEq, Repr

/-- The etcd key space: an association list key ↦ envelope, maintained
sorted by key with unique keys. -/
abbrev Store := List (String × ConfigSchemaData)

/-- Single-key read (`client.Get(ctx, key)`): the value at `key`, if any.
`res.Count > 0` in Go corresponds to `isSome` here. -/
def storeGet : Store → String → Option ConfigSchemaData
  | [], _ => none
  | (k', v) :: rest, k => if k' = k then some v else storeGet rest k

/-- Write (`client.Put(ctx, key, value)`): insert keeping the list sorted
by key; replace the value if the key is present. -/
def storePut : Store → String → ConfigSchemaData → Store
  | [], k, v => [(k, v)]
  | (k', v') :: rest, k, v =>
    if k = k' then (k, v) :: rest
    else if k < k' then (k, v) :: (k', v') :: rest
    else (k', v') :: storePut rest k v

/-- Delete (`client.Delete(ctx, key)`): the store without `key`, together
with the number of deleted entries (`res.Deleted`). -/
def storeDelete (st : Store) (key : String) : Store × Nat :=
  (st.filter (fun kv => kv.1 ≠ key), (st.filter (fun kv => kv.1 = key)).length)

/-- Go `strings.HasPrefix` (the prefix-range criterion of etcd): `p` is a
leading subsequence of `s`. -/
def goHasPrefix (p s : String) : Bool :=
  p.toList.isPrefixOf s.toList

/-- Prefix read (`client.Get(ctx, p, clientv3.WithPrefix())`): every entry
whose key starts with `p`, in store (key-ascending) order. -/
def storeGetRange (st : Store) (p : String) : List (String × ConfigSchemaData) :=
  st.filter (fun kv => goHasPrefix p kv.1)

/-- Go `strings.Split` with a one-character separator: the (possibly empty)
pieces between occurrences of `sep`; the result always has one more piece
than there are separators (`strings.Split("", sep) = [""]`). -/
def splitOnChar (sep : Char) : List Char → List (List Char)
  | [] => [[]]
  | c :: rest =>
    let r := splitOnChar sep rest
    if c = sep then [] :: r
    else
      match r with
      | s :: ss => (c :: s) :: ss
      | [] => [[c]]

/-! ## Embedding of `golang.org/x/mod/semver.Compare`

A faithful embedding of the version comparison the repository uses for
ordering listings, working over `List Char` (Go compares bytes; all
characters accepted by the grammar are ASCII, where byte order and
code-point order agree). -/

/-- Go `isIdentChar`: `A`–`Z`, `a`–`z`, `0`–`9` or `-`. -/
def isIdentChar (c : Char) : Bool :=
  c.isAlpha || c.isDigit || c = '-'

/-- Go `isNum`: every character is a digit (vacuously true of the empty
string, as in Go). -/
def isNumChars (s : List Char) : Bool :=
  s.all Char.isDigit

/-- Go `isBadNum`: all digits, more than one of them, with a leading zero. -/
def isBadNum (s : List Char) : Bool :=
  isNumChars s && decide (1 < s.length) && decide (s.head? = some '0')

/-- Split on `.`: the dot-separated segments of an identifier sequence
(`["a", "", "b"]` for `a..b`, so empty segments are visible). -/
def splitSegs : List Char → List (List Char) :=
  splitOnChar '.'

/-- Go `parseInt`: a non-empty leading run of digits with no leading zero
(unless exactly `0`); returns the digits and the rest. -/
def parseIntSem : List Char → Option (List Char × List Char)
  | [] => none
  | c :: cs =>
    if c.isDigit then
      let digits := cs.takeWhile Char.isDigit
      if c = '0' ∧ digits ≠ [] then none
      else some (c :: digits, cs.dropWhile Char.isDigit)
    else none

/-- Go `parsePrerelease`: a `-` followed by non-empty dot-separated
identifiers (numeric ones without leading zeros), scanning up to the first
`+`.  Returns the prerelease *including* the leading `-`, and the rest. -/
def parsePrereleaseSem (v : List Char) : Option (List Char × List Char) :=
  match v with
  | '-' :: tail =>
    let region := tail.takeWhile (· ≠ '+')
    let rest := tail.dropWhile (· ≠ '+')
    if region.all (fun c => isIdentChar c || c = '.') then
      if (splitSegs region).all (fun s => s ≠ [] && !isBadNum s) then
        some ('-' :: region, rest)
      else none
    else none
  | _ => none

/-- Go `parseBuild`: a `+` followed by non-empty dot-separated identifiers
(leading zeros allowed), scanning to the end of the string. -/
def parseBuildSem (v : List Char) : Option (List Char × List Char) :=
  match v with
  | '+' :: tail =>
    if tail.all (fun c => isIdentChar c || c = '.') then
      if (splitSegs tail).all (fun s => s ≠ []) then
        some ('+' :: tail, [])
      else none
    else none
  | _ => none

/-- The result of Go `parse`: the fields of a parsed semantic version
(`short` is irrelevant to `Compare` and omitted). -/
structure SemParsed where
  major : List Char
  minor : List Char
  patch : List Char
  prerelease : List Char
  build : List Char
deriving DecidableEq, Repr

/-- Go `semver.parse`: requires a leading `v`; `major[.minor[.patch]]` with
missing minor/patch defaulting to `0`; then optional prerelease and build;
the whole string must be consumed.  `none` is Go's `ok = false`: the
version is *invalid*. -/
def semParse (v : String) : Option SemParsed :=
  match v.toList with
  | [] => none
  | c :: tail =>
    if c ≠ 'v' then none
    else
      match parseIntSem tail with
      | none => none
      | some (maj, r1) =>
        match r1 with
        | [] => some ⟨maj, ['0'], ['0'], [], []⟩
        | c1 :: r2 =>
          if c1 ≠ '.' then none
          else
            match parseIntSem r2 with
            | none => none
            | some (mi, r3) =>
              match r3 with
              | [] => some ⟨maj, mi, ['0'], [], []⟩
              | c2 :: r4 =>
                if c2 ≠ '.' then none
                else
                  match parseIntSem r4 with
                  | none => none
                  | some (pa, r5) =>
                    let pre :=
                      match r5 with
                      | '-' :: _ => parsePrereleaseSem r5
                      | other => some ([], other)
                    match pre with
                    | none => none
                    | some (pr, r6) =>
                      let bld :=
                        match r6 with
                        | '+' :: _ => parseBuildSem r6
                        | other => some ([], other)
                      match bld with
                      | none => none
                      | some (bu, r7) =>
                        if r7 = [] then some ⟨maj, mi, pa, pr, bu⟩ else none

/-- Bytewise (here: code-point-wise) strict order on strings, Go's `<`. -/
def charListLt : List Char → List Char → Bool
  | [], [] => false
  | [], _ :: _ => true
  | _ :: _, [] => false
  | a :: as, b :: bs =>
    if a.toNat < b.toNat then true
    else if b.toNat < a.toNat then false
    else charListLt as bs

/-- Go `compareInt`: compare decimal strings without leading zeros — equal
strings are equal, shorter is smaller, same length falls back to bytewise
order. -/
def compareIntStr (x y : List Char) : Int :=
  if x = y then 0
  else if x.length < y.length then -1
  else if y.length < x.length then 1
  else if charListLt x y then -1 else 1

/-- The loop of Go `comparePrerelease`: peel one separator (`-` or `.`)
from each side, compare the next dot-delimited identifiers (numeric before
alphanumeric; numeric by magnitude; alphanumeric bytewise), recurse on a
tie; an exhausted side loses. -/
def comparePrereleaseLoop (x y : List Char) : Int :=
  match x, y with
  | [], _ => -1
  | _ :: _, [] => 1
  | _ :: xtl, _ :: ytl =>
    let dx := xtl.takeWhile (· ≠ '.')
    let dy := ytl.takeWhile (· ≠ '.')
    if dx = dy then
      comparePrereleaseLoop (xtl.dropWhile (· ≠ '.')) (ytl.dropWhile (· ≠ '.'))
    else
      let ix := isNumChars dx
      let iy := isNumChars dy
      if ix ≠ iy then (if ix then -1 else 1)
      else if ix && decide (dx.length < dy.length) then -1
      else if ix && decide (dy.length < dx.length) then 1
      else if charListLt dx dy then -1 else 1
termination_by x.length
decreasing_by
  simp only [List.length_cons]
  exact Nat.lt_succ_of_le (List.dropWhile_suffix _).length_le

/-- Go `comparePrerelease`: the absence of a prerelease ranks above any
prerelease. -/
def comparePrerelease (x y : List Char) : Int :=
  if x = y then 0
  else if x = [] then 1
  else if y = [] then -1
  else comparePrereleaseLoop x y

/-- Go `semver.Compare`: an invalid version is below a valid one and all
invalid versions compare equal; valid versions compare by major, minor,
patch, then prerelease. -/
def semverCompare (v w : String) : Int :=
  match semParse v, semParse w with
  | none, none => 0
  | none, some _ => -1
  | some _, none => 1
  | some pv, some pw =>
    let c1 := compareIntStr pv.major pw.major
    if c1 ≠ 0 then c1
    else
      let c2 := compareIntStr pv.minor pw.minor
      if c2 ≠ 0 then c2
      else
        let c3 := compareIntStr pv.patch pw.patch
        if c3 ≠ 0 then c3
        else comparePrerelease pv.prerelease pw.prerelease

/-! ## The repository operations -/

/-- The distinct failure sites of the repository operations.  The Go code
returns untyped `error` values; each constructor corresponds to one
`errors.New`/propagation site. -/
inductive RepoError where
  /-- A non-nil error from the etcd client (unreachable store or expired
  deadline). -/
  | transport
  /-- Error `errors.New("Key '" + key + "' already exists!")` in `SaveConfigSchema`. -/
  | alreadyExists (key : String)
  /-- A non-nil error from `yaml.YAMLToJSON` in `SaveConfigSchema`. -/
  | yamlToJsonError
  /-- A non-nil error from `yaml.JSONToYAML` on a read path. -/
  | jsonToYamlError
  /-- Error `errors.New("No schema with key '" + key + "' found!")` in
  `DeleteConfigSchema`. -/
  | notFound (key : String)
deriving DecidableEq, Repr

/-- The outcome of a Go call: a returned value, a returned error, or a
runtime panic (which no repository code catches). -/
inductive GoResult (α : Type) where
  | ok (a : α)
  | err (e : RepoError)
  | panicked
deriving DecidableEq, Repr

/-- Go `getSchemaDetailsFromKey`: `strings.Split(key, "/")` followed by
unchecked positional indexing `tokens[0] … tokens[3]`.  Fewer than four
segments makes the Go code panic with an index-out-of-range — modelled as
`none`; extra segments beyond the fourth are silently ignored, as in the
source. -/
def getSchemaDetailsFromKey (key : String) : Option ConfigSchemaDetails :=
  match (splitOnChar '/' key.toList).map (fun cs => String.mk cs) with
  | t0 :: t1 :: t2 :: t3 :: _ => some ⟨t0, t1, t2, t3⟩
  | _ => none

/-- Go `SaveConfigSchema`: read the key; fail if it already holds a record;
convert the schema from YAML to JSON; build the envelope with
`CreationTime = now`; write it.  Returns the result together with the
(possibly updated) store.  `toJson'` stands for `yaml.YAMLToJSON`;
`json.Marshal` of the envelope cannot fail and is elided. -/
def saveConfigSchema (toJson' : String → Option String) (avail : Bool)
    (st : Store) (key schema : String) (now : Nat) : GoResult Unit × Store :=
  if !avail then (.err .transport, st)
  else if (storeGet st key).isSome then (.err (.alreadyExists key), st)
  else
    match toJson' schema with
    | none => (.err .yamlToJsonError, st)
    | some schemaJson =>
      (.ok (), storePut st key { schema := schemaJson, creationTime := now })

/-- Go `GetConfigSchema`: read the key; `(nil, nil)` — here `.ok none` — when
no record exists; otherwise convert the stored schema from JSON back to
YAML and return the envelope with only its `Schema` field rewritten.
`fromJson'` stands for `yaml.JSONToYAML`. -/
def getConfigSchema (fromJson' : String → Option String) (avail : Bool)
    (st : Store) (key : String) : GoResult (Option ConfigSchemaData) :=
  if !avail then .err .transport
  else
    match storeGet st key with
    | none => .ok none
    | some schemaData =>
      match fromJson' schemaData.schema with
      | none => .err .jsonToYamlError
      | some schemaYaml => .ok (some { schemaData with schema := schemaYaml })

/-- Go `DeleteConfigSchema`: delete the key; `ok` when the store reports at
least one deletion, `notFound` when it reports zero. -/
def deleteConfigSchema (avail : Bool) (st : Store) (key : String) :
    GoResult Unit × Store :=
  if !avail then (.err .transport, st)
  else if 0 < (storeDelete st key).2 then (.ok (), (storeDelete st key).1)
  else (.err (.notFound key), st)

/-- The loop body of `GetSchemasByPrefix` over the returned key/value
pairs, in range order: decode the key (panicking on short keys), convert
the schema to YAML (aborting the whole call on error), and pair details
with the rewritten envelope. -/
def buildSchemas (fromJson' : String → Option String) :
    List (String × ConfigSchemaData) → GoResult (List ConfigSchema)
  | [] => .ok []
  | (k, d) :: rest =>
    match getSchemaDetailsFromKey k with
    | none => .panicked
    | some details =>
      match fromJson' d.schema with
      | none => .err .jsonToYamlError
      | some schemaYaml =>
        match buildSchemas fromJson' rest with
        | .ok l => .ok (⟨details, { d with schema := schemaYaml }⟩ :: l)
        | .err e => .err e
        | .panicked => .panicked

/-- The comparison closure passed to `sort.Slice`:
`semver.Compare(version_i, version_j) == -1`. -/
def goLess (a b : ConfigSchema) : Prop :=
  semverCompare a.schemaDetails.version b.schemaDetails.version = -1

instance : DecidableRel goLess := fun a b => by unfold goLess; infer_instance

/-- Go `sort.Slice(schemas, …)`: for fewer than 13 elements Go's pdqsort runs
its (stable) insertion sort, modelled by `List.insertionSort` under the
total preorder `¬ goLess b a`; for longer slices this is still a sort by
the same comparator, differing at most in the order of `goLess`-ties. -/
def sortSchemas (l : List ConfigSchema) : List ConfigSchema :=
  List.insertionSort (fun a b => ¬ goLess b a) l

/-- Go `GetSchemasByPrefix`: prefix-read, `(nil, nil)` — `.ok []` — when
nothing matches, otherwise decode/convert every entry and sort by the
semver comparator. -/
def getSchemasByPrefix (fromJson' : String → Option String) (avail : Bool)
    (st : Store) (p : String) : GoResult (List ConfigSchema) :=
  if !avail then .err .transport
  else
    let kvs := storeGetRange st p
    if kvs.length = 0 then .ok []
    else
      match buildSchemas fromJson' kvs with
      | .ok schemas => .ok (sortSchemas schemas)
      | .err e => .err e
      | .panicked => .panicked

/-- Go `GetLatestVersionByPrefix`: delegate to `GetSchemasByPrefix`; `""` for
an empty listing, otherwise the version of `schemas[len(schemas)-1]`. -/
def getLatestVersionByPrefix (fromJson' : String → Option String)
    (avail : Bool) (st : Store) (p : String) : GoResult String :=
  match getSchemasByPrefix fromJson' avail st p with
  | .err e => .err e
  | .panicked => .panicked
  | .ok schemas =>
    if h : schemas.length = 0 then .ok ""
    else .ok (schemas.getLast (by intro hnil; simp [hnil] at h)).schemaDetails.version

/-! ## Package-level configuration (C9)

`repository.go` reads the etcd endpoint from the process environment at
package initialisation:
`var endpoint = os.Getenv("ETCD_ADDRESS")`. -/

/-- The process environment: variable name ↦ value; `os.Getenv` yields `""`
for an unset variable, so total functions model it. -/
def ProcEnv : Type := String → String

/-- Go `var endpoint = os.Getenv("ETCD_ADDRESS")`. -/
def endpoint (env : ProcEnv) : String := env "ETCD_ADDRESS"

/-- Go `var timeout = 5 * time.Second`, in seconds. -/
def timeoutSeconds : Nat := 5

/-- The `clientv3.Config` built by `NewClient`. -/
structure EtcdConfig where
  endpoints : List String
  dialTimeoutSeconds : Nat
deriving DecidableEq, Repr

/-- Go `NewClient()`: takes no parameters; the client configuration is a
function of the ambient process environment alone. -/
def newClientConfig (env : ProcEnv) : EtcdConfig :=
  { endpoints := [endpoint env], dialTimeoutSeconds := timeoutSeconds }

/-! ## Interleaved `SaveConfigSchema` calls (C5)

`SaveConfigSchema` issues two separate etcd calls: `client.Get` (the
existence check) and `client.Put` (the write).  Between them nothing locks
the key, so two callers can interleave.  `saverStep` splits the function
at its two client calls. -/

/-- The control point of one in-flight `SaveConfigSchema` call: before the
`Get`, between `Get` and `Put` (having observed the key absent), or
returned. -/
inductive SaverPc where
  | start
  | checked
  | finished (r : GoResult Unit)
deriving DecidableEq, Repr

/-- One scheduler step of a `SaveConfigSchema(key, schema)` call: at
`start`, perform the `Get` and either return the conflict error or proceed;
at `checked`, transcode and perform the `Put` (the write happens whatever
the store now holds); a finished call does nothing. -/
def saverStep (toJson' : String → Option String) (key schema : String)
    (now : Nat) (st : Store) (pc : SaverPc) : Store × SaverPc :=
  match pc with
  | .start =>
    if (storeGet st key).isSome then (st, .finished (.err (.alreadyExists key)))
    else (st, .checked)
  | .checked =>
    match toJson' schema with
    | none => (st, .finished (.err .yamlToJsonError))
    | some schemaJson =>
      (storePut st key { schema := schemaJson, creationTime := now },
       .finished (.ok ()))
  | .finished r => (st, .finished r)

/-- Two concurrent `SaveConfigSchema` calls on the same key: the shared
store and each call's control point. -/
structure TwoSavers where
  store : Store
  pc1 : SaverPc
  pc2 : SaverPc
deriving DecidableEq, Repr

/-- Run one step of saver 1 (`true`) or saver 2 (`false`). -/
def twoStep (toJson' : String → Option String) (key s1 s2 : String)
    (n1 n2 : Nat) (σ : TwoSavers) (who : Bool) : TwoSavers :=
  if who then
    let (st', pc') := saverStep toJson' key s1 n1 σ.store σ.pc1
    { σ with store := st', pc1 := pc' }
  else
    let (st', pc') := saverStep toJson' key s2 n2 σ.store σ.pc2
    { σ with store := st', pc2 := pc' }

/-- Run a schedule (a list of saver choices) from a state. -/
def twoRun (toJson' : String → Option String) (key s1 s2 : String)
    (n1 n2 : Nat) (σ : TwoSavers) : List Bool → TwoSavers
  | [] => σ
  | who :: rest =>
    twoRun toJson' key s1 s2 n1 n2 (twoStep toJson' key s1 s2 n1 n2 σ who) rest

/-! ## The Schema Transcoder (C4)

Modelled from the spec: the Schema Transcoder responsibility is delegated
to the third-party library `sigs.k8s.io/yaml` (`YAMLToJSON`/`JSONToYAML`),
whose code is not under `src/`.  Following §4.2 of the spec, a
human-authored text is either a well-formed document — a tree of field
values and nesting, plus formatting the canonical form is allowed to lose
(comments) — or malformed; the canonical text carries the same tree. -/

/-- A document value tree: scalars, sequences and mappings — the "field
values and nesting" the spec's structural equivalence preserves. -/
inductive YVal where
  | str (s : String)
  | num (n : Int)
  | boolean (b : Bool)
  | null
  | arr (elems : List YVal)
  | obj (fields : List (String × YVal))

/-- Modelled from the spec: a human-authored schema text — a well-formed
document (its value tree plus comments/formatting), or malformed text. -/
inductive HumanText where
  | wellFormed (value : YVal) (comments : List String)
  | malformed (raw : String)

/-- Modelled from the spec: a canonical storage text — a well-formed
document (its bare value tree), or malformed text. -/
inductive CanonText where
  | doc (value : YVal)
  | malformed (raw : String)

/-- Modelled from the spec: `ToCanonical(humanText) -> canonicalText |
InvalidSchema` — keeps the value tree, drops comments, rejects malformed
input (`none` is the InvalidSchema outcome). -/
def ToCanonical : HumanText → Option CanonText
  | .wellFormed v _ => some (.doc v)
  | .malformed _ => none

/-- Modelled from the spec: `ToHuman(canonicalText) -> humanText |
InvalidSchema` — keeps the value tree (with no comments, since the
canonical form stores none), rejects malformed input. -/
def ToHuman : CanonText → Option HumanText
  | .doc v => some (.wellFormed v [])
  | .malformed _ => none

/-- Structural equivalence of human texts, per the spec: same field values
and nesting; comments and formatting are ignored. -/
def structEquiv : HumanText → HumanText → Prop
  | .wellFormed v _, .wellFormed w _ => v = w
  | .malformed r, .malformed s => r = s
  | _, _ => False

/-! ## Store lemmas -/

theorem storeGet_storePut_self (st : Store) (k : String) (v : ConfigSchemaData) :
    storeGet (storePut st k v) k = some v := by
  induction st with
  | nil => simp [storePut, storeGet]
  | cons hd tl ih =>
    obtain ⟨k', v'⟩ := hd
    simp only [storePut]
    by_cases h : k = k'
    · simp [h, storeGet]
    · by_cases h2 : k < k'
      · simp [h, h2, storeGet]
      · simp [h, h2, storeGet, Ne.symm h, ih]

theorem storeGet_mem (st : Store) (k : String) (d : ConfigSchemaData)
    (h : storeGet st k = some d) : (k, d) ∈ st := by
  induction st with
  | nil => simp [storeGet] at h
  | cons hd tl ih =>
    obtain ⟨k', v'⟩ := hd
    by_cases hk : k' = k
    · subst hk
      simp [storeGet] at h
      simp [h]
    · simp [storeGet, hk] at h
      exact List.mem_cons_of_mem _ (ih h)

theorem storeDelete_count_pos (st : Store) (k : String) (d : ConfigSchemaData)
    (h : storeGet st k = some d) : 0 < (storeDelete st k).2 := by
  have hmem : (k, d) ∈ st.filter (fun kv => kv.1 = k) :=
    List.mem_filter.mpr ⟨storeGet_mem st k d h, by simp⟩
  simpa [storeDelete] using List.length_pos.mpr (List.ne_nil_of_mem hmem)

theorem storeDelete_count_zero (st : Store) (k : String)
    (h : storeGet st k = none) : (storeDelete st k).2 = 0 := by
  induction st with
  | nil => simp [storeDelete]
  | cons hd tl ih =>
    obtain ⟨k', v'⟩ := hd
    by_cases hk : k' = k
    · simp [storeGet, hk] at h
    · simp [storeGet, hk] at h
      have := ih h
      simpa [storeDelete, hk] using this

theorem storeGet_filter_ne (st : Store) (k : String) :
    storeGet (st.filter fun kv => kv.1 ≠ k) k = none := by
  induction st with
  | nil => simp [storeGet]
  | cons hd tl ih =>
    rw [List.filter_cons]
    by_cases h : hd.1 = k
    · simpa [h] using ih
    · simpa [h, storeGet] using ih

theorem buildSchemas_mem (fj : String → Option String) :
    ∀ (kvs : List (String × ConfigSchemaData)) (l : List ConfigSchema),
      buildSchemas fj kvs = .ok l → ∀ cs ∈ l,
      ∃ kv, kv ∈ kvs ∧ getSchemaDetailsFromKey kv.1 = some cs.schemaDetails ∧
        cs.schemaData.creationTime = kv.2.creationTime := by
  intro kvs
  induction kvs with
  | nil =>
    intro l h cs hcs
    simp [buildSchemas] at h
    subst h
    simp at hcs
  | cons kv rest ih =>
    intro l h cs hcs
    obtain ⟨k, d⟩ := kv
    unfold buildSchemas at h
    cases hdet : getSchemaDetailsFromKey k with
    | none => simp [hdet] at h
    | some det =>
      cases hf : fj d.schema with
      | none => simp [hdet, hf] at h
      | some y =>
        cases hb : buildSchemas fj rest with
        | ok l' =>
          simp [hdet, hf, hb] at h
          subst h
          rcases List.mem_cons.mp hcs with hcs | hcs
          · refine ⟨(k, d), List.mem_cons_self _ _, ?_, ?_⟩
            · simp [hcs, hdet]
            · simp [hcs]
          · obtain ⟨kv', h1, h2, h3⟩ := ih l' hb cs hcs
            exact ⟨kv', List.mem_cons_of_mem _ h1, h2, h3⟩
        | err e => simp [hdet, hf, hb] at h
        | panicked => simp [hdet, hf, hb] at h

/-! ## The claims -/

/-- C1: for every key already holding a record, a second `SaveConfigSchema`
fails with the conflict error and leaves the store unchanged, and a
subsequent `GetConfigSchema` still returns the schema written by the first
successful save (transcoded to YAML) with its original creation time. -/
theorem save_on_existing_key_conflicts_and_preserves
    (tj fj : String → Option String) (st : Store) (k s1 s2 : String)
    (n1 n2 : Nat) (c1 h1 : String)
    (habs : storeGet st k = none) (htj : tj s1 = some c1)
    (hfj : fj c1 = some h1) :
    saveConfigSchema tj true st k s1 n1 = (.ok (), storePut st k ⟨c1, n1⟩) ∧
    saveConfigSchema tj true (storePut st k ⟨c1, n1⟩) k s2 n2 =
      (.err (.alreadyExists k), storePut st k ⟨c1, n1⟩) ∧
    getConfigSchema fj true (storePut st k ⟨c1, n1⟩) k = .ok (some ⟨h1, n1⟩) := by
  refine ⟨?_, ?_, ?_⟩
  · simp [saveConfigSchema, habs, htj]
  · simp [saveConfigSchema, storeGet_storePut_self]
  · simp [getConfigSchema, storeGet_storePut_self, hfj]

theorem save_on_existing_key_conflicts_and_preserves_witness :
    (storeGet ([] : Store) "org/ns/app/1.0.0" = none ∧
     some "a: 1" = some "a: 1" ∧ some "a: 1" = some "a: 1") ∧
    (saveConfigSchema some true [] "org/ns/app/1.0.0" "a: 1" 5 =
        (.ok (), storePut [] "org/ns/app/1.0.0" ⟨"a: 1", 5⟩) ∧
      saveConfigSchema some true (storePut [] "org/ns/app/1.0.0" ⟨"a: 1", 5⟩)
          "org/ns/app/1.0.0" "b: 2" 6 =
        (.err (.alreadyExists "org/ns/app/1.0.0"),
         storePut [] "org/ns/app/1.0.0" ⟨"a: 1", 5⟩) ∧
      getConfigSchema some true (storePut [] "org/ns/app/1.0.0" ⟨"a: 1", 5⟩)
          "org/ns/app/1.0.0" = .ok (some ⟨"a: 1", 5⟩)) :=
  ⟨⟨rfl, rfl, rfl⟩,
   save_on_existing_key_conflicts_and_preserves some some [] "org/ns/app/1.0.0"
     "a: 1" "b: 2" 5 6 "a: 1" "a: 1" rfl rfl rfl⟩

/-- C2 (code bug): on the spec's own example — versions `1.2.0`, `1.10.0`,
`1.3.0`, `0.9.0` saved under one prefix — the listing is NOT in
semantic-version order.  `golang.org/x/mod/semver.Compare` treats a version
without a leading `v` as invalid, and all invalid versions compare equal,
so `sort.Slice` leaves the store's lexical key order
`0.9.0, 1.10.0, 1.2.0, 1.3.0` in place and `GetLatestVersionByPrefix`
returns `1.3.0` instead of `1.10.0`. -/
theorem bare_versions_listing_keeps_lexical_order :
    getSchemasByPrefix some true
      [("org/ns/name/0.9.0", ⟨"s1", 1⟩), ("org/ns/name/1.10.0", ⟨"s2", 2⟩),
       ("org/ns/name/1.2.0", ⟨"s3", 3⟩), ("org/ns/name/1.3.0", ⟨"s4", 4⟩)]
      "org/ns/name" =
      .ok [⟨⟨"org", "ns", "name", "0.9.0"⟩, ⟨"s1", 1⟩⟩,
           ⟨⟨"org", "ns", "name", "1.10.0"⟩, ⟨"s2", 2⟩⟩,
           ⟨⟨"org", "ns", "name", "1.2.0"⟩, ⟨"s3", 3⟩⟩,
           ⟨⟨"org", "ns", "name", "1.3.0"⟩, ⟨"s4", 4⟩⟩] ∧
    getLatestVersionByPrefix some true
      [("org/ns/name/0.9.0", ⟨"s1", 1⟩), ("org/ns/name/1.10.0", ⟨"s2", 2⟩),
       ("org/ns/name/1.2.0", ⟨"s3", 3⟩), ("org/ns/name/1.3.0", ⟨"s4", 4⟩)]
      "org/ns/name" = .ok "1.3.0" := by
  exact ⟨by decide, by decide⟩

/-- C3 (code bug): `getSchemaDetailsFromKey` has no MalformedKey error
path.  On a key with fewer than four segments it panics with an
index-out-of-range (modelled as `none`), and under `GetSchemasByPrefix` the
whole call dies by panic rather than returning a typed error; a key with
more than four segments is not rejected at all — the extra segments are
silently dropped. -/
theorem malformed_key_panics_not_typed_error :
    getSchemaDetailsFromKey "a/b" = none ∧
    getSchemasByPrefix some true [("a/b", ⟨"s", 1⟩)] "a" = .panicked ∧
    getSchemaDetailsFromKey "a/b/c/d/e" = some ⟨"a", "b", "c", "d"⟩ := by
  exact ⟨by decide, by decide, by decide⟩

/-- C4: for every human-authored text accepted by `ToCanonical`,
transcoding to canonical form and back with `ToHuman` succeeds and yields a
text structurally equivalent to the original — the value tree (field values
and nesting) is preserved, only comments/formatting are lost. -/
theorem toCanonical_toHuman_roundtrip (h : HumanText) (c : CanonText)
    (hc : ToCanonical h = some c) :
    ∃ h2, ToHuman c = some h2 ∧ structEquiv h2 h := by
  cases h with
  | wellFormed v comments =>
    simp [ToCanonical] at hc
    subst hc
    exact ⟨.wellFormed v [], rfl, rfl⟩
  | malformed r => simp [ToCanonical] at hc

theorem toCanonical_toHuman_roundtrip_witness :
    ToCanonical (.wellFormed (.obj [("a", .arr [.num 1])]) ["note"]) =
      some (.doc (.obj [("a", .arr [.num 1])])) ∧
    ∃ h2, ToHuman (.doc (.obj [("a", .arr [.num 1])])) = some h2 ∧
      structEquiv h2 (.wellFormed (.obj [("a", .arr [.num 1])]) ["note"]) :=
  ⟨rfl, toCanonical_toHuman_roundtrip
    (.wellFormed (.obj [("a", .arr [.num 1])]) ["note"])
    (.doc (.obj [("a", .arr [.num 1])])) rfl⟩

/-- C5 (code bug): `SaveConfigSchema` is a separate `Get` followed by a
`Put`, not an atomic compare-and-set.  Under the interleaving
Get₁, Get₂, Put₁, Put₂ of two concurrent saves on the same fresh key, both
calls observe the key absent and both return success — not one success and
one conflict — and the second write silently overwrites the first record. -/
theorem interleaved_saves_both_succeed :
    twoRun some "org/ns/app/1.0.0" "a: 1" "b: 2" 1 2
      ⟨[], .start, .start⟩ [true, false, true, false] =
      ⟨[("org/ns/app/1.0.0", ⟨"b: 2", 2⟩)],
       .finished (.ok ()), .finished (.ok ())⟩ := by
  decide

/-- C6: for every key with no record, `GetConfigSchema` returns the absent
outcome `.ok none`, not an error; a transport failure is reported on a
distinct channel (`.err .transport`), so absence is distinguished from
failure to reach the store. -/
theorem get_absent_is_ok_none (fj : String → Option String) (st : Store)
    (k : String) (habs : storeGet st k = none) :
    getConfigSchema fj true st k = .ok none ∧
    getConfigSchema fj false st k = .err .transport ∧
    (.ok none : GoResult (Option ConfigSchemaData)) ≠ .err .transport := by
  refine ⟨by simp [getConfigSchema, habs], by simp [getConfigSchema], by simp⟩

theorem get_absent_is_ok_none_witness :
    storeGet ([] : Store) "org/ns/app/1.0.0" = none ∧
    (getConfigSchema some true [] "org/ns/app/1.0.0" = .ok none ∧
     getConfigSchema some false [] "org/ns/app/1.0.0" = .err .transport ∧
     (.ok none : GoResult (Option ConfigSchemaData)) ≠ .err .transport) :=
  ⟨rfl, get_absent_is_ok_none some [] "org/ns/app/1.0.0" rfl⟩

/-- C7: `DeleteConfigSchema` fails with the not-found error (leaving the
store unchanged) when no record exists at the key, and succeeds when one
does, after which `GetConfigSchema` on that key reports absent. -/
theorem delete_absent_notFound_present_removes (fj : String → Option String)
    (st : Store) (k : String) :
    (storeGet st k = none →
      deleteConfigSchema true st k = (.err (.notFound k), st)) ∧
    (∀ d, storeGet st k = some d →
      (deleteConfigSchema true st k).1 = .ok () ∧
      getConfigSchema fj true (deleteConfigSchema true st k).2 k = .ok none) := by
  constructor
  · intro h
    have hc : (storeDelete st k).2 = 0 := storeDelete_count_zero st k h
    simp [deleteConfigSchema, hc]
  · intro d h
    have hc : 0 < (storeDelete st k).2 := storeDelete_count_pos st k d h
    rw [storeDelete] at hc
    constructor
    · simp [deleteConfigSchema, storeDelete, hc]
    · have hget := storeGet_filter_ne st k
      simp only [decide_not] at hget
      simp [deleteConfigSchema, storeDelete, hc, getConfigSchema, hget]

theorem delete_absent_notFound_present_removes_witness :
    storeGet [("org/ns/app/1.0.0", ⟨"c", 3⟩)] "org/ns/app/1.0.0" =
      some ⟨"c", 3⟩ ∧
    ((deleteConfigSchema true [("org/ns/app/1.0.0", ⟨"c", 3⟩)]
        "org/ns/app/1.0.0").1 = .ok () ∧
     getConfigSchema some true
        (deleteConfigSchema true [("org/ns/app/1.0.0", ⟨"c", 3⟩)]
          "org/ns/app/1.0.0").2 "org/ns/app/1.0.0" = .ok none) :=
  ⟨rfl, (delete_absent_notFound_present_removes some
    [("org/ns/app/1.0.0", ⟨"c", 3⟩)] "org/ns/app/1.0.0").2 ⟨"c", 3⟩ rfl⟩

/-- C8: `GetLatestVersionByPrefix` equals the version field of the last
element of the `GetSchemasByPrefix` listing, and the empty string when that
listing is empty; errors and panics propagate unchanged. -/
theorem latest_version_is_last_of_listing (fj : String → Option String)
    (avail : Bool) (st : Store) (p : String) :
    getLatestVersionByPrefix fj avail st p =
      match getSchemasByPrefix fj avail st p with
      | .ok schemas =>
        .ok ((schemas.getLast?.map fun c => c.schemaDetails.version).getD "")
      | .err e => .err e
      | .panicked => .panicked := by
  unfold getLatestVersionByPrefix
  cases h : getSchemasByPrefix fj avail st p with
  | err e => rfl
  | panicked => rfl
  | ok schemas =>
    cases schemas with
    | nil => simp
    | cons a l => simp [List.getLast?_eq_getLast]

/-- C9 (code bug): the repository reads the etcd endpoint from the ambient
process environment (`os.Getenv("ETCD_ADDRESS")` at package
initialisation); `NewClient` takes no configuration parameters, so two runs
with identical explicit inputs but different environments build different
clients. -/
theorem new_client_config_depends_on_environment :
    newClientConfig (fun v => if v = "ETCD_ADDRESS" then "etcd-a:2379" else "")
      ≠
    newClientConfig
      (fun v => if v = "ETCD_ADDRESS" then "etcd-b:2379" else "") := by
  decide

/-- C10: every envelope successfully read back by `GetConfigSchema` or
`GetSchemasByPrefix` carries the `creationTime` exactly as persisted: the
JSON-to-YAML rewrite touches only the `schema` field, and each listing
entry's details come from decoding its own stored key. -/
theorem read_paths_preserve_creation_time (fj : String → Option String) :
    (∀ st k e, getConfigSchema fj true st k = .ok (some e) →
      ∃ d, storeGet st k = some d ∧ e.creationTime = d.creationTime) ∧
    (∀ st p l, getSchemasByPrefix fj true st p = .ok l →
      ∀ cs ∈ l, ∃ kv, kv ∈ storeGetRange st p ∧
        getSchemaDetailsFromKey kv.1 = some cs.schemaDetails ∧
        cs.schemaData.creationTime = kv.2.creationTime) := by
  constructor
  · intro st k e h
    cases hg : storeGet st k with
    | none => simp [getConfigSchema, hg] at h
    | some d =>
      cases hf : fj d.schema with
      | none => simp [getConfigSchema, hg, hf] at h
      | some y =>
        simp [getConfigSchema, hg, hf] at h
        exact ⟨d, rfl, by simp [← h]⟩
  · intro st p l h
    unfold getSchemasByPrefix at h
    by_cases hlen : (storeGetRange st p).length = 0
    · simp [hlen] at h
      subst h
      intro cs hcs
      simp at hcs
    · cases hb : buildSchemas fj (storeGetRange st p) with
      | ok schemas =>
        simp [hlen, hb] at h
        subst h
        intro cs hcs
        have hmem : cs ∈ schemas :=
          (List.perm_insertionSort _ schemas).mem_iff.mp hcs
        exact buildSchemas_mem fj (storeGetRange st p) schemas hb cs hmem
      | err e => simp [hlen, hb] at h
      | panicked => simp [hlen, hb] at h

theorem read_paths_preserve_creation_time_witness :
    getConfigSchema some true [("org/ns/app/1.0.0", ⟨"c", 7⟩)]
      "org/ns/app/1.0.0" = .ok (some ⟨"c", 7⟩) ∧
    ∃ d, storeGet [("org/ns/app/1.0.0", ⟨"c", 7⟩)] "org/ns/app/1.0.0" =
        some d ∧
      (⟨"c", 7⟩ : ConfigSchemaData).creationTime = d.creationTime :=
  ⟨rfl, (read_paths_preserve_creation_time some).1
    [("org/ns/app/1.0.0", ⟨"c", 7⟩)] "org/ns/app/1.0.0" ⟨"c", 7⟩ rfl⟩

end Quasar
